import Mathlib

/-!
Verification of the envoyage configuration-variable resolution library.

The runtime engine (`src/environment.ts`, `src/environment-registry.ts`,
`src/variable.ts`, `src/variable-registry.ts`, `src/resolver.ts`,
`src/types.ts`) is embedded shallowly:

* JavaScript values produced by caller-supplied resolution functions are
  `JSValue` (a string, `undefined`/`null`, or some other non-string value).
* A resolution function invocation either returns a plain value or a
  Promise; this is `ResolveResult`.  Whether the *function object* is an
  `AsyncFunction` (the runtime check `resolve.constructor.name ===
  "AsyncFunction"` in `Resolver.getVariableAsyncStatus`) is carried as the
  separate boolean field `isAsyncFn` of `Resolution`.
* `Resolver.get` returns a `GetResult`: a synchronous throw, a plain
  string, a Promise resolving to a string, or a rejected Promise.
* The uniqueness rules that the TypeScript source enforces purely at the
  type level (`RemoveLiteral`, `KeepIf`/`HasIntersection` parameter types)
  are embedded as `Option`-returning checked builders: the builder returns
  `none` exactly when the corresponding parameter type is uninhabited, so
  that the call cannot be written in the source language.
* The resolver's `variableAsyncMap` memoization cache is omitted: it is
  write-once-per-key and populated from immutable inputs, so it is
  observationally transparent; `getVariableAsyncStatus` is embedded as the
  pure scan its loop body performs.
-/

/-- A JavaScript value as observed by `Resolver.get`'s validation code:
a string, `undefined`/`null`, or any other (non-string, non-nullish) value. -/
inductive JSValue where
  | vstr (s : String)
  | vnull
  | vother
deriving DecidableEq, Repr

/-- Environment data (`envData`).  The claims only ever exercise record-like
environment data, embedded as a string-to-string association list. -/
def EnvData : Type := List (String × String)

/-- The argument object passed to a resolution function:
`{ payload, envData, variableName }` (`ResolveData` in `src/resolution.ts`). -/
structure ResolveInput where
  payload : JSValue
  envData : EnvData
  variableName : String

/-- The outcome of invoking a resolution function: either a plain
(synchronous) value, or a Promise that settles to a value. -/
inductive ResolveResult where
  | sync (v : JSValue)
  | promise (v : JSValue)

/-- One resolution strategy of an environment (`Resolution` in
`src/resolution.ts`): a tag, the resolve function, and whether that function
is an `AsyncFunction` at runtime (`resolve.constructor.name ===
"AsyncFunction"`). -/
structure Resolution where
  tag : String
  isAsyncFn : Bool
  resolve : ResolveInput → ResolveResult

/-- A named environment with its ordered list of resolutions
(`Environment` in `src/environment.ts`; the phantom `dataType` field has no
runtime content and is omitted). -/
structure Environment where
  name : String
  resolutions : List Resolution

/-- `EnvironmentRegistry` from `src/environment-registry.ts`:
the ordered list of environments. -/
structure EnvironmentRegistry where
  environments : List Environment

/-- The `type` field of a variable definition: either a user-defined binding
(resolution tag + payload) or a dynamic binding (runtime-supplied value
keyed by `dynamicName`), as built by `Variable.for` / `Variable.dynamicFor`. -/
inductive DefType where
  | userDefined (tag : String) (payload : JSValue)
  | dynamic (dynamicName : String)
deriving DecidableEq, Repr

/-- One `(envName, type)` definition entry of a variable
(`DefinedResolution` in `src/resolution.ts`). -/
structure VarDef where
  envName : String
  type : DefType
deriving DecidableEq, Repr

/-- A named variable with its list of per-environment definitions
(`Variable` in `src/variable.ts`). -/
structure Variable where
  name : String
  definitions : List VarDef
deriving DecidableEq, Repr

/-- `VariableRegistry` from `src/variable-registry.ts`: the environment
registry back-reference and the ordered list of variables (the source field
`variables` is renamed `vars`: `variables` is a reserved token in Lean). -/
structure VariableRegistry where
  environmentRegistry : EnvironmentRegistry
  vars : List Variable

/-- `Resolver` from `src/resolver.ts` (the memoization cache
`variableAsyncMap` is omitted, see the header comment; the source field
`variables` is renamed `vars` as in `VariableRegistry`). -/
structure Resolver where
  environmentRegistry : EnvironmentRegistry
  vars : List Variable
  envName : String
  envData : EnvData
  dynamicData : List (String × String)
  possibleEnvNames : List String

/-! ### Builders (the persistent fluent API) -/

/-- `Environment.create(name)`: an environment with no resolutions. -/
def Environment.create (name : String) : Environment :=
  ⟨name, []⟩

/-- The runtime body shared by both `addResolution` overloads in
`src/environment.ts`: appends `Resolution.create(tag, resolve)` to a copy of
the resolutions list and returns a new `Environment`. -/
def Environment.addResolution (e : Environment) (tag : String) (isAsyncFn : Bool)
    (resolve : ResolveInput → ResolveResult) : Environment :=
  ⟨e.name, e.resolutions ++ [⟨tag, isAsyncFn, resolve⟩]⟩

/-- The synchronous `addResolution` overload.  Its `tag` parameter has type
`RemoveLiteral<Tag, R["tag"]>`, which is uninhabited exactly when `tag` is
already a resolution tag of this environment; the checked builder returns
`none` in that case.  A synchronous resolve function returns a plain value
and is not an `AsyncFunction`. -/
def Environment.addResolutionSyncChecked (e : Environment) (tag : String)
    (resolve : ResolveInput → JSValue) : Option Environment :=
  if e.resolutions.any (fun r => r.tag == tag) then none
  else some (e.addResolution tag false (fun i => .sync (resolve i)))

/-- The asynchronous `addResolution` overload.  Its `tag` parameter has the
unconstrained type `Tag` (no `RemoveLiteral`), so the call is accepted for
any tag, including one already present; the builder is total. -/
def Environment.addResolutionAsyncChecked (e : Environment) (tag : String)
    (resolve : ResolveInput → JSValue) : Environment :=
  e.addResolution tag true (fun i => .promise (resolve i))

/-- `EnvironmentRegistry.addEnv(envName, _envDataType, f)`: appends
`f(Environment.create(envName))` to a copy of the environments list. -/
def EnvironmentRegistry.addEnv (er : EnvironmentRegistry) (envName : String)
    (f : Environment → Environment) : EnvironmentRegistry :=
  ⟨er.environments ++ [f (Environment.create envName)]⟩

/-- `addEnv` with its type-level guard: the `envName` parameter has type
`RemoveLiteral<EnvName, Env["name"]>`, uninhabited exactly when `envName` is
already the name of a registered environment. -/
def EnvironmentRegistry.addEnvChecked (er : EnvironmentRegistry) (envName : String)
    (f : Environment → Environment) : Option EnvironmentRegistry :=
  if er.environments.any (fun e => e.name == envName) then none
  else some (er.addEnv envName f)

/-- `Variable.create(name)`: a variable with no definitions. -/
def Variable.create (name : String) : Variable :=
  ⟨name, []⟩

/-- `Variable.for(envName, tag, payload?)` (named `forEnv` because `for` is
reserved in Lean): appends a user-defined definition.  An omitted payload is
`undefined` (`args[0]` in the source), embedded as `JSValue.vnull`. -/
def Variable.forEnv (v : Variable) (envName tag : String) (payload : JSValue) : Variable :=
  ⟨v.name, v.definitions ++ [⟨envName, .userDefined tag payload⟩]⟩

/-- `Variable.dynamicFor(envName, dynamicName)`: appends a dynamic
definition. -/
def Variable.dynamicFor (v : Variable) (envName dynamicName : String) : Variable :=
  ⟨v.name, v.definitions ++ [⟨envName, .dynamic dynamicName⟩]⟩

/-- `VariableRegistry.addVar(name, f)`: appends `f(Variable.create(name))`
to a copy of the variables list. -/
def VariableRegistry.addVar (vr : VariableRegistry) (name : String)
    (f : Variable → Variable) : VariableRegistry :=
  ⟨vr.environmentRegistry, vr.vars ++ [f (Variable.create name)]⟩

/-- `addVar` with its type-level guard: the `name` parameter has type
`RemoveLiteral<Name, Var["name"]>`, uninhabited exactly when `name` is
already the name of a variable of this registry. -/
def VariableRegistry.addVarChecked (vr : VariableRegistry) (name : String)
    (f : Variable → Variable) : Option VariableRegistry :=
  if vr.vars.any (fun v => v.name == name) then none
  else some (vr.addVar name f)

/-- `VariableRegistry.mergeWith(other)`: appends the other registry's
variables to a copy of this registry's variables list. -/
def VariableRegistry.mergeWith (vr other : VariableRegistry) : VariableRegistry :=
  ⟨vr.environmentRegistry, vr.vars ++ other.vars⟩

/-- `mergeWith` with its type-level guard: the parameter type
`KeepIf<…, Not<HasIntersection<Var, Var2>>>` is uninhabited exactly when the
two registries' variable types intersect, i.e. share a variable name. -/
def VariableRegistry.mergeWithChecked (vr other : VariableRegistry) : Option VariableRegistry :=
  if vr.vars.any (fun v => other.vars.any (fun w => w.name == v.name)) then none
  else some (vr.mergeWith other)

/-- `VariableRegistry.createResolver(envName, envData, dynamicData?)`:
`dynamicData` is `args[0] ?? {}`; `possibleEnvNames` is `[envName]`. -/
def VariableRegistry.createResolver (vr : VariableRegistry) (envName : String)
    (envData : EnvData) (dynamicData : Option (List (String × String))) : Resolver :=
  { environmentRegistry := vr.environmentRegistry
    vars := vr.vars
    envName := envName
    envData := envData
    dynamicData := dynamicData.getD []
    possibleEnvNames := [envName] }

/-! ### `Resolver.get` -/

/-- The result of `Resolver.get`: a synchronous throw, a plain string, a
Promise resolving to a string, or a Promise rejecting with an error. -/
inductive GetResult where
  | err (msg : String)
  | val (s : String)
  | promiseVal (s : String)
  | promiseErr (msg : String)
deriving DecidableEq, Repr

/-- `Variable ${name} not found` -/
def notFoundMsg (name : String) : String :=
  s!"Variable {name} not found"

/-- `No definition found for variable ${name} in ${envName}` -/
def noDefMsg (name envName : String) : String :=
  s!"No definition found for variable {name} in {envName}"

/-- `No resolution found for variable ${name} in ${envName} using ${tag}` -/
def noResMsg (name envName tag : String) : String :=
  s!"No resolution found for variable {name} in {envName} using {tag}"

/-- `Variable ${name} in ${envName} resolved to undefined or null` -/
def nullishMsg (name envName : String) : String :=
  s!"Variable {name} in {envName} resolved to undefined or null"

/-- `Variable ${name} in ${envName} resolved to a non-string value` -/
def nonStringMsg (name envName : String) : String :=
  s!"Variable {name} in {envName} resolved to a non-string value"

/-- The `validateValue` closure of `Resolver.get`: rejects
`undefined`/`null` and non-string values, returns the string otherwise. -/
def validateValue (name envName : String) (v : JSValue) : Except String String :=
  match v with
  | .vnull => .error (nullishMsg name envName)
  | .vother => .error (nonStringMsg name envName)
  | .vstr s => .ok s

/-- JavaScript property lookup `obj?.[key]` on a string record: the stored
string, or `undefined` when the key is absent. -/
def jsLookup (l : List (String × String)) (k : String) : JSValue :=
  match l.find? (fun p => p.1 == k) with
  | some p => .vstr p.2
  | none => .vnull

/-- The `getValue` closure of `Resolver.get`: for a dynamic definition the
value is `dynamicData?.[dynamicName]` (no resolution function invoked); for
a user-defined definition the resolution with the matching tag is looked up
in the bound environment (a missing environment or missing tag both leave
`res === undefined` and throw `No resolution found …`) and invoked with
`{ payload, envData, variableName }`. -/
def Resolver.getValueE (r : Resolver) (name : String) (d : VarDef) :
    Except String ResolveResult :=
  match d.type with
  | .dynamic dn => .ok (.sync (jsLookup r.dynamicData dn))
  | .userDefined tag payload =>
    match r.environmentRegistry.environments.find? (fun e => e.name == r.envName) with
    | none => .error (noResMsg name r.envName tag)
    | some env =>
      match env.resolutions.find? (fun res => res.tag == tag) with
      | none => .error (noResMsg name r.envName tag)
      | some res => .ok (res.resolve ⟨payload, r.envData, name⟩)

/-- The loop body of `Resolver.getVariableAsyncStatus` for one candidate
environment: the variable's definition for that environment is looked up;
only a user-defined definition whose resolution function exists and is an
`AsyncFunction` counts as asynchronous. -/
def Resolver.envAsyncFor (r : Resolver) (v : Variable) (env : String) : Bool :=
  match v.definitions.find? (fun d => d.envName == env) with
  | none => false
  | some d =>
    match d.type with
    | .dynamic _ => false
    | .userDefined tag _ =>
      match r.environmentRegistry.environments.find? (fun e => e.name == env) with
      | none => false
      | some envObj =>
        match envObj.resolutions.find? (fun res => res.tag == tag) with
        | none => false
        | some res => res.isAsyncFn

/-- `Resolver.getVariableAsyncStatus`: scans `possibleEnvNames` and reports
whether any candidate environment resolves this variable asynchronously
(the source's loop breaks at the first match; the memoization cache is
observationally transparent and omitted). -/
def Resolver.getVariableAsyncStatus (r : Resolver) (v : Variable) : Bool :=
  r.possibleEnvNames.any (r.envAsyncFor v)

/-- `Resolver.get(name)`: find the variable, find its definition for the
bound environment, compute the value, validate it, and wrap the result in a
Promise when the invocation itself returned a Promise or when
`getVariableAsyncStatus` reports the variable as possibly asynchronous. -/
def Resolver.get (r : Resolver) (name : String) : GetResult :=
  match r.vars.find? (fun v => v.name == name) with
  | none => .err (notFoundMsg name)
  | some v =>
    match v.definitions.find? (fun d => d.envName == r.envName) with
    | none => .err (noDefMsg name r.envName)
    | some d =>
      match r.getValueE name d with
      | .error m => .err m
      | .ok (.promise pv) =>
        match validateValue name r.envName pv with
        | .ok s => .promiseVal s
        | .error m => .promiseErr m
      | .ok (.sync sv) =>
        match validateValue name r.envName sv with
        | .error m => .err m
        | .ok s => if r.getVariableAsyncStatus v then .promiseVal s else .val s

/-! ### Aggregation: `getAll`, `getAllFor` -/

/-- Is this result a synchronous throw? -/
def GetResult.isSyncErr : GetResult → Bool
  | .err _ => true
  | _ => false

/-- Is this result a Promise (`value instanceof Promise`)?  A rejected
Promise is still a Promise. -/
def GetResult.isPromise : GetResult → Bool
  | .promiseVal _ => true
  | .promiseErr _ => true
  | _ => false

/-- Is this result a rejected Promise? -/
def GetResult.isRejected : GetResult → Bool
  | .promiseErr _ => true
  | _ => false

/-- Did this result produce a string, directly or as a fulfilled Promise? -/
def GetResult.isOk : GetResult → Bool
  | .val _ => true
  | .promiseVal _ => true
  | _ => false

/-- The error message of a throwing or rejecting result. -/
def GetResult.errMsg : GetResult → String
  | .err m => m
  | .promiseErr m => m
  | _ => ""

/-- The string a non-failing result settles to (`await value`). -/
def GetResult.awaited : GetResult → String
  | .val s => s
  | .promiseVal s => s
  | _ => ""

/-- One step of JavaScript object insertion `obj[k] = v`: an existing key
keeps its position and takes the new value, a new key is appended. -/
def setKey (acc : List (String × String)) (k v : String) : List (String × String) :=
  if acc.any (fun p => p.1 == k) then
    acc.map (fun p => if p.1 == k then (k, v) else p)
  else acc ++ [(k, v)]

/-- `Object.fromEntries` / the `result[key] = val` loop: entries inserted in
order with JavaScript object key semantics. -/
def fromEntriesJS (l : List (String × String)) : List (String × String) :=
  l.foldl (fun acc p => setKey acc p.1 p.2) []

/-- The result of `getAll` / `getAllFor`: a synchronous throw, a plain
object (insertion-ordered key/value list), a Promise fulfilling with such an
object, or a Promise rejecting with an error. -/
inductive AggResult where
  | err (msg : String)
  | obj (entries : List (String × String))
  | promiseObj (entries : List (String × String))
  | promiseErr (msg : String)
deriving DecidableEq, Repr

/-- The shared aggregation of `getAll` and `getAllFor` over the per-variable
`get` results: the first synchronous throw propagates (the `.map` over the
variables runs `get` sequentially); otherwise, if any entry is a Promise the
whole result is the `Promise.all` of the entries — rejecting with the first
rejected entry, else fulfilling with the object of awaited values — and if
no entry is a Promise the plain object is returned. -/
def aggregate (entries : List (String × GetResult)) : AggResult :=
  match entries.find? (fun e => e.2.isSyncErr) with
  | some e => .err e.2.errMsg
  | none =>
    if entries.any (fun e => e.2.isPromise) then
      match entries.find? (fun e => e.2.isRejected) with
      | some e => .promiseErr e.2.errMsg
      | none => .promiseObj (fromEntriesJS (entries.map (fun e => (e.1, e.2.awaited))))
    else
      .obj (fromEntriesJS (entries.map (fun e => (e.1, e.2.awaited))))

/-- The `commonVariables` selection of `Resolver.getAll`: variables that
have a definition for every environment in `possibleEnvNames`. -/
def Resolver.commonVariables (r : Resolver) : List Variable :=
  r.vars.filter (fun v => r.possibleEnvNames.all
    (fun env => v.definitions.any (fun d => d.envName == env)))

/-- `Resolver.getAll()`: resolve every common variable via `get` and
aggregate, preserving async behavior. -/
def Resolver.getAll (r : Resolver) : AggResult :=
  aggregate (r.commonVariables.map (fun v => (v.name, r.get v.name)))

/-- The filter of `Resolver.getAllFor`: variables whose definition for the
target environment (`definitions.find(def => def.envName === envName)`) is
user-defined with exactly the requested tag. -/
def Resolver.targetVariablesFor (r : Resolver) (envName tag : String) : List Variable :=
  r.vars.filter (fun v =>
    match v.definitions.find? (fun d => d.envName == envName) with
    | some d =>
      match d.type with
      | .userDefined t _ => t == tag
      | .dynamic _ => false
    | none => false)

/-- `Resolver.getAllFor(envName, tag)`: resolve, in the *bound* environment
via `get`, every variable that uses `tag` in the target environment, and
aggregate as in `getAll`. -/
def Resolver.getAllFor (r : Resolver) (envName tag : String) : AggResult :=
  aggregate ((r.targetVariablesFor envName tag).map (fun v => (v.name, r.get v.name)))

/-- `VariableRegistry.listVariables(envName, tag)` (from the
`VariableRegistry` revision embedded in
`docs-website/src/pages/index.tsx`): the names, in registry order, of
variables having some definition for `envName` that is user-defined with
exactly this tag. -/
def VariableRegistry.listVariables (vr : VariableRegistry) (envName tag : String) :
    List String :=
  (vr.vars.filter (fun v => v.definitions.any (fun d =>
    d.envName == envName &&
      (match d.type with
       | .userDefined t _ => t == tag
       | .dynamic _ => false)))).map (fun v => v.name)

/-! ### The async-status algebra (`src/async.ts`, `src/types.ts`) -/

/-- `AsyncStatus = "sync" | "async"`. -/
inductive AsyncStatus where
  | sync
  | async
deriving DecidableEq, Repr

/-- `MergeAsync` as defined in the `types.ts` revision at
`src/unnamed/part_000` line 418:
`"async" extends Status ? "async" : "sync"`.  A union of statuses is
embedded as the finite list of its members. -/
def MergeAsync (status : List AsyncStatus) : AsyncStatus :=
  if AsyncStatus.async ∈ status then .async else .sync

/-- `MergeAsync` as defined in the `types.ts` revision at
`src/unnamed/part_009` line 354:
`"sync" extends Status ? "sync" : "async"`. -/
def MergeAsyncAlt (status : List AsyncStatus) : AsyncStatus :=
  if AsyncStatus.sync ∈ status then .sync else .async


/-! ### Helper lemmas -/

/-- Inserting a fresh key appends it. -/
theorem setKey_of_not_mem (acc : List (String × String)) (k v : String)
    (h : acc.any (fun p => p.1 == k) = false) : setKey acc k v = acc ++ [(k, v)] := by
  simp [setKey, h]

/-- Folding JavaScript object insertion over entries with pairwise-distinct
keys, none of which occurs in the accumulator, appends them in order. -/
theorem foldl_setKey_append (l : List (String × String)) :
    ∀ acc : List (String × String), (l.map Prod.fst).Nodup →
      (∀ p ∈ l, ∀ q ∈ acc, p.1 ≠ q.1) →
      l.foldl (fun acc p => setKey acc p.1 p.2) acc = acc ++ l := by
  induction l with
  | nil =>
    intro acc _ _
    simp
  | cons p t ih =>
    intro acc hnd hdisj
    have hk : acc.any (fun q => q.1 == p.1) = false := by
      rw [List.any_eq_false]
      intro q hq
      simp only [beq_iff_eq]
      exact fun hqe => (hdisj p (by simp) q hq) hqe.symm
    have hstep : setKey acc p.1 p.2 = acc ++ [p] := by
      rw [setKey_of_not_mem acc p.1 p.2 hk]
    have hnd' : (t.map Prod.fst).Nodup := (List.nodup_cons.mp (by simpa using hnd)).2
    have hhead : p.1 ∉ t.map Prod.fst := (List.nodup_cons.mp (by simpa using hnd)).1
    have hdisj' : ∀ x ∈ t, ∀ q ∈ acc ++ [p], x.1 ≠ q.1 := by
      intro x hx q hq
      rcases List.mem_append.mp hq with hq | hq
      · exact hdisj x (List.mem_cons_of_mem _ hx) q hq
      · have : q = p := by simpa using hq
        subst this
        intro hxe
        exact hhead (hxe ▸ List.mem_map_of_mem Prod.fst hx)
    calc (p :: t).foldl (fun acc p => setKey acc p.1 p.2) acc
        = t.foldl (fun acc p => setKey acc p.1 p.2) (acc ++ [p]) := by
          simp [List.foldl_cons, hstep]
      _ = (acc ++ [p]) ++ t := ih (acc ++ [p]) hnd' hdisj'
      _ = acc ++ (p :: t) := by simp

/-- With pairwise-distinct keys, `Object.fromEntries` returns the entries
unchanged. -/
theorem fromEntriesJS_of_nodup (l : List (String × String))
    (hnd : (l.map Prod.fst).Nodup) : fromEntriesJS l = l := by
  have := foldl_setKey_append l [] hnd (by intro p _ q hq; simp at hq)
  simpa [fromEntriesJS] using this

/-- `any` over a mapped list tests the composed predicate. -/
theorem any_map_general {α β : Type} (l : List α) (f : α → β) (p : β → Bool) :
    (l.map f).any p = l.any (fun x => p (f x)) := by
  induction l with
  | nil => rfl
  | cons a t ih => simp [List.any_cons, ih]

/-- Aggregation over entries that all produced a string (directly or as a
fulfilled Promise): no throw, no rejection; a Promise of the awaited object
when some entry is a Promise, the plain object otherwise. -/
theorem aggregate_of_ok (entries : List (String × GetResult))
    (h : ∀ e ∈ entries, e.2.isOk = true) :
    aggregate entries =
      if entries.any (fun e => e.2.isPromise) then
        .promiseObj (fromEntriesJS (entries.map (fun e => (e.1, e.2.awaited))))
      else
        .obj (fromEntriesJS (entries.map (fun e => (e.1, e.2.awaited)))) := by
  have h1 : entries.find? (fun e => e.2.isSyncErr) = none := by
    rw [List.find?_eq_none]
    intro e he
    have := h e he
    cases hr : e.2 <;> simp_all [GetResult.isOk, GetResult.isSyncErr]
  have h2 : entries.find? (fun e => e.2.isRejected) = none := by
    rw [List.find?_eq_none]
    intro e he
    have := h e he
    cases hr : e.2 <;> simp_all [GetResult.isOk, GetResult.isRejected]
  simp only [aggregate, h1, h2]

/-! ### Concrete fixtures (mirroring the reference example of the spec and
the repository's resolver tests) -/

/-- The synchronous `"hardcoded"` resolve function `(data) => data.payload`. -/
def hardcodedResolve : ResolveInput → ResolveResult := fun d => .sync d.payload

/-- An `AsyncFunction` resolution: resolves to `"async-value"`. -/
def asyncResResolve : ResolveInput → ResolveResult := fun _ => .promise (.vstr "async-value")

/-- `env1` with a synchronous `"hardcoded"` resolution. -/
def demoEnv1 : Environment := ⟨"env1", [⟨"hardcoded", false, hardcodedResolve⟩]⟩

/-- `env2` with a synchronous `"hardcoded"` and an asynchronous
`"async-res"` resolution. -/
def demoEnv2 : Environment :=
  ⟨"env2", [⟨"hardcoded", false, hardcodedResolve⟩, ⟨"async-res", true, asyncResResolve⟩]⟩

/-- The registry of `demoEnv1` and `demoEnv2`. -/
def demoEnvReg : EnvironmentRegistry := ⟨[demoEnv1, demoEnv2]⟩

/-- `VAR1 .for("env1","hardcoded","value1").for("env2","async-res")`. -/
def demoVar1 : Variable :=
  ⟨"VAR1", [⟨"env1", .userDefined "hardcoded" (.vstr "value1")⟩,
            ⟨"env2", .userDefined "async-res" .vnull⟩]⟩

/-- `VAR2 .for("env1","hardcoded","value2")` (not defined in `env2`). -/
def demoVar2 : Variable := ⟨"VAR2", [⟨"env1", .userDefined "hardcoded" (.vstr "value2")⟩]⟩

/-- A dynamic resolver bound to `env1` with possible environments
`["env1", "env2"]`, as produced by `createDynamicResolver`. -/
def demoDynResolver : Resolver :=
  ⟨demoEnvReg, [demoVar1, demoVar2], "env1", [], [], ["env1", "env2"]⟩

example : demoDynResolver.get "VAR1" = .promiseVal "value1" := by decide
example : demoDynResolver.get "VAR2" = .val "value2" := by decide
example : demoDynResolver.getAll = .promiseObj [("VAR1", "value1")] := by decide
example : demoDynResolver.getAllFor "env2" "async-res" = .promiseObj [("VAR1", "value1")] := by decide

/-! ### Claim theorems -/

/-- C1: for a variable bound in the resolver's environment, `get` returns a
Promise of the validated awaited value when the resolution invocation for
the bound environment returned a Promise; when the invocation was
synchronous it still returns a Promise wrapping the validated string
whenever some possible environment resolves the variable asynchronously
(`getVariableAsyncStatus`, characterized in the first conjunct as a scan of
`possibleEnvNames`), and returns the plain string exactly when the
invocation was synchronous and no possible environment is asynchronous. -/
theorem get_async_propagation
    (r : Resolver) (name : String) (V : Variable) (d : VarDef)
    (hv : r.vars.find? (fun v => v.name == name) = some V)
    (hd : V.definitions.find? (fun dd => dd.envName == r.envName) = some d) :
    (r.getVariableAsyncStatus V = true ↔
      ∃ env ∈ r.possibleEnvNames, r.envAsyncFor V env = true) ∧
    (∀ v, r.getValueE name d = .ok (.promise v) →
      r.get name = match validateValue name r.envName v with
        | .ok s => .promiseVal s
        | .error m => .promiseErr m) ∧
    (∀ s, r.getValueE name d = .ok (.sync (.vstr s)) →
      r.getVariableAsyncStatus V = true → r.get name = .promiseVal s) ∧
    (∀ s, r.getValueE name d = .ok (.sync (.vstr s)) →
      r.getVariableAsyncStatus V = false → r.get name = .val s) := by
  refine ⟨?_, ?_, ?_, ?_⟩
  · simp [Resolver.getVariableAsyncStatus, List.any_eq_true]
  · intro v hval
    simp only [Resolver.get, hv, hd, hval]
  · intro s hval hasync
    simp only [Resolver.get, hv, hd, hval, validateValue, hasync, if_true]
  · intro s hval hasync
    simp [Resolver.get, hv, hd, hval, validateValue, hasync]

/-- C1 witness: in the dynamic-resolver fixture, `VAR1` resolves
synchronously in the bound `env1` but asynchronously in the possible
`env2`, so `get` wraps the synchronous value in a Promise. -/
theorem get_async_propagation_witness :
    demoDynResolver.get "VAR1" = .promiseVal "value1" := by
  have h := get_async_propagation demoDynResolver "VAR1" demoVar1
    ⟨"env1", .userDefined "hardcoded" (.vstr "value1")⟩ (by decide) (by decide)
  exact h.2.2.1 "value1" (by rfl) (by decide)

/-- C2: `getAll` covers exactly the variables having a definition for every
possible environment (first conjunct), silently excluding the rest, and maps
each to the value `get` produces; the result is a plain object when no
entry is a Promise and otherwise a single Promise of the awaited object. -/
theorem getAll_common_set
    (r : Resolver)
    (hnd : (r.commonVariables.map Variable.name).Nodup)
    (hok : ∀ v ∈ r.commonVariables, (r.get v.name).isOk = true) :
    (∀ v : Variable, v ∈ r.commonVariables ↔
      v ∈ r.vars ∧ ∀ env ∈ r.possibleEnvNames, ∃ d ∈ v.definitions, d.envName = env) ∧
    r.getAll =
      (if r.commonVariables.any (fun v => (r.get v.name).isPromise) then
        AggResult.promiseObj (r.commonVariables.map (fun v => (v.name, (r.get v.name).awaited)))
      else
        AggResult.obj (r.commonVariables.map (fun v => (v.name, (r.get v.name).awaited)))) := by
  constructor
  · intro v
    simp [Resolver.commonVariables, List.mem_filter, List.all_eq_true, List.any_eq_true]
  · have hok' : ∀ e ∈ r.commonVariables.map (fun v => (v.name, r.get v.name)),
        e.2.isOk = true := by
      intro e he
      rcases List.mem_map.mp he with ⟨v, hvmem, rfl⟩
      exact hok v hvmem
    have hagg := aggregate_of_ok _ hok'
    have hmap : (r.commonVariables.map (fun v => (v.name, r.get v.name))).map
        (fun e => (e.1, e.2.awaited)) =
        r.commonVariables.map (fun v => (v.name, (r.get v.name).awaited)) := by
      rw [List.map_map]
      rfl
    have hany : (r.commonVariables.map (fun v => (v.name, r.get v.name))).any
        (fun e => e.2.isPromise) =
        r.commonVariables.any (fun v => (r.get v.name).isPromise) := by
      rw [any_map_general]
    have hfe : fromEntriesJS
        (r.commonVariables.map (fun v => (v.name, (r.get v.name).awaited))) =
        r.commonVariables.map (fun v => (v.name, (r.get v.name).awaited)) := by
      apply fromEntriesJS_of_nodup
      rw [List.map_map]
      exact hnd
    rw [Resolver.getAll, hagg, hmap, hany, hfe]

/-- C2 witness: in the dynamic-resolver fixture, `VAR2` lacks a definition
for the possible environment `env2` and is silently excluded; `VAR1` is
possibly asynchronous, so the result is a Promise of the awaited object. -/
theorem getAll_common_set_witness :
    demoDynResolver.getAll = .promiseObj [("VAR1", "value1")] := by
  have h := getAll_common_set demoDynResolver (by decide) (by decide)
  exact h.2.trans (by decide)

/-- The `getAllFor` filter predicate holds exactly when the definition
found for the target environment is user-defined with the requested tag. -/
theorem targetPred_iff (v : Variable) (target tag : String) :
    ((match v.definitions.find? (fun dd => dd.envName == target) with
      | some d =>
        match d.type with
        | .userDefined t _ => t == tag
        | .dynamic _ => false
      | none => false) = true) ↔
    (∃ d, v.definitions.find? (fun dd => dd.envName == target) = some d ∧
      ∃ p, d.type = DefType.userDefined tag p) := by
  cases hf : v.definitions.find? (fun dd => dd.envName == target) with
  | none => simp
  | some d =>
    change (match d.type with
      | DefType.userDefined t _ => t == tag
      | DefType.dynamic _ => false) = true ↔ _
    cases ht : d.type with
    | userDefined t p => simp [ht]
    | dynamic dn => simp [ht]

/-- C3: `getAllFor(target, tag)` covers exactly the variables whose
definition for the target environment is user-defined with exactly this tag
(first conjunct: dynamic definitions, missing definitions and other tags
are excluded), resolving each via `get` in the *bound* environment, with
the same plain-object/Promise aggregation as `getAll`. -/
theorem getAllFor_exclusion
    (r : Resolver) (target tag : String)
    (hnd : ((r.targetVariablesFor target tag).map Variable.name).Nodup)
    (hok : ∀ v ∈ r.targetVariablesFor target tag, (r.get v.name).isOk = true) :
    (∀ v : Variable, v ∈ r.targetVariablesFor target tag ↔
      v ∈ r.vars ∧ ∃ d, v.definitions.find? (fun dd => dd.envName == target) = some d ∧
        ∃ p, d.type = .userDefined tag p) ∧
    r.getAllFor target tag =
      (if (r.targetVariablesFor target tag).any (fun v => (r.get v.name).isPromise) then
        AggResult.promiseObj
          ((r.targetVariablesFor target tag).map (fun v => (v.name, (r.get v.name).awaited)))
      else
        AggResult.obj
          ((r.targetVariablesFor target tag).map (fun v => (v.name, (r.get v.name).awaited)))) := by
  constructor
  · intro v
    rw [Resolver.targetVariablesFor, List.mem_filter]
    exact and_congr_right (fun _ => targetPred_iff v target tag)
  · have hok' : ∀ e ∈ (r.targetVariablesFor target tag).map (fun v => (v.name, r.get v.name)),
        e.2.isOk = true := by
      intro e he
      rcases List.mem_map.mp he with ⟨v, hvmem, rfl⟩
      exact hok v hvmem
    have hagg := aggregate_of_ok _ hok'
    have hmap : ((r.targetVariablesFor target tag).map (fun v => (v.name, r.get v.name))).map
        (fun e => (e.1, e.2.awaited)) =
        (r.targetVariablesFor target tag).map (fun v => (v.name, (r.get v.name).awaited)) := by
      rw [List.map_map]
      rfl
    have hany : ((r.targetVariablesFor target tag).map (fun v => (v.name, r.get v.name))).any
        (fun e => e.2.isPromise) =
        (r.targetVariablesFor target tag).any (fun v => (r.get v.name).isPromise) := by
      rw [any_map_general]
    have hfe : fromEntriesJS
        ((r.targetVariablesFor target tag).map (fun v => (v.name, (r.get v.name).awaited))) =
        (r.targetVariablesFor target tag).map (fun v => (v.name, (r.get v.name).awaited)) := by
      apply fromEntriesJS_of_nodup
      rw [List.map_map]
      exact hnd
    rw [Resolver.getAllFor, hagg, hmap, hany, hfe]

/-- C3 witness: `VAR1` uses `"async-res"` in `env2` and appears (resolved in
the bound `env1`); `VAR2` has no `env2` definition and is excluded. -/
theorem getAllFor_exclusion_witness :
    demoDynResolver.getAllFor "env2" "async-res" = .promiseObj [("VAR1", "value1")] := by
  have h := getAllFor_exclusion demoDynResolver "env2" "async-res" (by decide) (by decide)
  exact h.2.trans (by decide)

/-- C4: a variable whose definition for the bound environment is dynamic
resolves, through `createResolver(E, envData, dynamicData)`, to exactly the
string stored under its dynamic key; when the key is absent the lookup
yields `undefined` and `get` throws the nullish validation error.  No
resolution function is invoked: the last conjunct shows the result is the
same for every environment registry. -/
theorem dynamic_override
    (vr : VariableRegistry) (E : String) (envData : EnvData)
    (dyn : List (String × String)) (name k : String) (V : Variable)
    (hv : vr.vars.find? (fun v => v.name == name) = some V)
    (hd : V.definitions.find? (fun d => d.envName == E) = some ⟨E, .dynamic k⟩) :
    (∀ z, jsLookup dyn k = .vstr z →
      (vr.createResolver E envData (some dyn)).get name = .val z) ∧
    (jsLookup dyn k = .vnull →
      (vr.createResolver E envData (some dyn)).get name = .err (nullishMsg name E)) ∧
    (∀ er2 : EnvironmentRegistry,
      ((VariableRegistry.mk er2 vr.vars).createResolver E envData (some dyn)).get name =
        (vr.createResolver E envData (some dyn)).get name) := by
  refine ⟨?_, ?_, ?_⟩
  · intro z hz
    simp [Resolver.get, VariableRegistry.createResolver, hv, hd, Resolver.getValueE, hz,
      validateValue, Resolver.getVariableAsyncStatus, Resolver.envAsyncFor]
  · intro hz
    simp [Resolver.get, VariableRegistry.createResolver, hv, hd, Resolver.getValueE, hz,
      validateValue]
  · intro er2
    simp [Resolver.get, VariableRegistry.createResolver, hv, hd, Resolver.getValueE,
      Resolver.getVariableAsyncStatus, Resolver.envAsyncFor]

/-- The fixture variable `DOC_BUCKET .dynamicFor("env1", "bucket")`. -/
def demoVarDyn : Variable := ⟨"DOC_BUCKET", [⟨"env1", .dynamic "bucket"⟩]⟩

/-- A registry holding only the dynamic fixture variable. -/
def demoVarRegDyn : VariableRegistry := ⟨demoEnvReg, [demoVarDyn]⟩

/-- C4 witness: with dynamic data `{ bucket: "Z" }` the variable resolves to
`"Z"`; with an empty dynamic-data object `get` throws the nullish error. -/
theorem dynamic_override_witness :
    (demoVarRegDyn.createResolver "env1" [] (some [("bucket", "Z")])).get "DOC_BUCKET" =
      .val "Z" ∧
    (demoVarRegDyn.createResolver "env1" [] (some [])).get "DOC_BUCKET" =
      .err (nullishMsg "DOC_BUCKET" "env1") := by
  constructor
  · exact (dynamic_override demoVarRegDyn "env1" [] [("bucket", "Z")] "DOC_BUCKET" "bucket"
      demoVarDyn (by decide) (by decide)).1 "Z" (by decide)
  · exact (dynamic_override demoVarRegDyn "env1" [] [] "DOC_BUCKET" "bucket"
      demoVarDyn (by decide) (by decide)).2.1 (by decide)

/-- C5: round-trip for the hardcoded strategy.  For an environment whose
`"hardcoded"` resolution is the synchronous function `(data) => data.payload`
and a variable bound `.for(E, "hardcoded", X)`, a resolver created for `E`
alone returns exactly `X`, synchronously. -/
theorem hardcoded_round_trip
    (vr : VariableRegistry) (E : String) (envData : EnvData)
    (dyn : Option (List (String × String))) (name X : String)
    (V : Variable) (envObj : Environment)
    (hv : vr.vars.find? (fun v => v.name == name) = some V)
    (hd : V.definitions.find? (fun d => d.envName == E) =
      some ⟨E, .userDefined "hardcoded" (.vstr X)⟩)
    (he : vr.environmentRegistry.environments.find? (fun e => e.name == E) = some envObj)
    (hr : envObj.resolutions.find? (fun r => r.tag == "hardcoded") =
      some ⟨"hardcoded", false, hardcodedResolve⟩) :
    (vr.createResolver E envData dyn).get name = .val X := by
  simp [Resolver.get, VariableRegistry.createResolver, hv, hd, Resolver.getValueE, he, hr,
    hardcodedResolve, validateValue, Resolver.getVariableAsyncStatus, Resolver.envAsyncFor]

/-- A registry holding `demoVar2 = VAR2 .for("env1", "hardcoded", "value2")`. -/
def demoVarRegHard : VariableRegistry := ⟨demoEnvReg, [demoVar2]⟩

/-- C5 witness: `VAR2 .for("env1", "hardcoded", "value2")` round-trips. -/
theorem hardcoded_round_trip_witness :
    (demoVarRegHard.createResolver "env1" [] none).get "VAR2" = .val "value2" :=
  hardcoded_round_trip demoVarRegHard "env1" [] none "VAR2" "value2" demoVar2 demoEnv1
    (by decide) (by decide) (by rfl) (by rfl)

/-- C10: `createResolver` with the dynamic-data argument omitted succeeds
and constructs the resolver with an empty dynamic-data object
(`args[0] ?? {}`); for a variable whose definition for the bound
environment is dynamic, `get` then throws the nullish validation error at
lookup time. -/
theorem createResolver_omitted_dynamic_data
    (vr : VariableRegistry) (E : String) (envData : EnvData) (name k : String)
    (V : Variable)
    (hv : vr.vars.find? (fun v => v.name == name) = some V)
    (hd : V.definitions.find? (fun d => d.envName == E) = some ⟨E, .dynamic k⟩) :
    (vr.createResolver E envData none).dynamicData = [] ∧
    (vr.createResolver E envData none).get name = .err (nullishMsg name E) := by
  constructor
  · rfl
  · simp [Resolver.get, VariableRegistry.createResolver, hv, hd, Resolver.getValueE,
      jsLookup, validateValue]

/-- C10 witness: omitting the dynamic data leaves an empty dynamic-data
object and makes the dynamic fixture variable fail at lookup time. -/
theorem createResolver_omitted_dynamic_data_witness :
    (demoVarRegDyn.createResolver "env1" [] none).dynamicData = [] ∧
    (demoVarRegDyn.createResolver "env1" [] none).get "DOC_BUCKET" =
      .err (nullishMsg "DOC_BUCKET" "env1") :=
  createResolver_omitted_dynamic_data demoVarRegDyn "env1" [] "DOC_BUCKET" "bucket"
    demoVarDyn (by decide) (by decide)

/-- Over a definitions list with pairwise-distinct environment names,
scanning with `some`/`any` for "a definition for `envName` satisfying `q`"
agrees with testing `q` on *the* definition `find?` locates for `envName`. -/
theorem any_def_eq_find_def (defs : List VarDef) (envName : String) (q : DefType → Bool)
    (hnd : (defs.map VarDef.envName).Nodup) :
    (defs.any (fun d => d.envName == envName && q d.type)) =
      (match defs.find? (fun d => d.envName == envName) with
       | some d => q d.type
       | none => false) := by
  induction defs with
  | nil => rfl
  | cons d t ih =>
    have hnd' : (t.map VarDef.envName).Nodup := (List.nodup_cons.mp (by simpa using hnd)).2
    by_cases hdl : d.envName = envName
    · have hhead : d.envName ∉ t.map VarDef.envName := (List.nodup_cons.mp (by simpa using hnd)).1
      have hna : t.any (fun dd => dd.envName == envName && q dd.type) = false := by
        rw [List.any_eq_false]
        intro dd hdd
        have hne : dd.envName ≠ envName := by
          intro he
          exact hhead (hdl ▸ he ▸ List.mem_map_of_mem VarDef.envName hdd)
        simp [hne]
      rw [List.any_cons, hna, List.find?_cons_of_pos _ (by simp [hdl]), Bool.or_false, hdl]
      simp
    · rw [List.any_cons, List.find?_cons_of_neg _ (by simp [hdl]), ih hnd']
      simp [hdl]

/-- C7: under the builder invariant that a variable has at most one
definition per environment name, `listVariables(envName, tag)` returns, in
registry order, exactly the names of the variables whose definition for
`envName` is user-defined with exactly this tag; variables whose definition
for `envName` is dynamic, absent, or differently tagged are excluded.  The
call only inspects definitions: no resolver state is involved. -/
theorem listVariables_spec
    (vr : VariableRegistry) (envName tag : String)
    (hinv : ∀ v ∈ vr.vars, (v.definitions.map VarDef.envName).Nodup) :
    vr.listVariables envName tag =
      (vr.vars.filter (fun v =>
        match v.definitions.find? (fun d => d.envName == envName) with
        | some d =>
          match d.type with
          | .userDefined t _ => t == tag
          | .dynamic _ => false
        | none => false)).map (fun v => v.name) := by
  rw [VariableRegistry.listVariables]
  congr 1
  apply List.filter_congr
  intro v hvmem
  exact any_def_eq_find_def v.definitions envName
    (fun ty => match ty with
      | .userDefined t _ => t == tag
      | .dynamic _ => false) (hinv v hvmem)

/-- The `listVariables` scenario registry:
`VAR1 .for(env1,"hardcoded","v1")`, a dynamic `VARX .dynamicFor(env1,"k")`,
and `VAR3 .for(env1,"hardcoded","v3-1").for(env2,"hardcoded","v3-2")`. -/
def demoVarRegList : VariableRegistry :=
  ⟨demoEnvReg,
   [⟨"VAR1", [⟨"env1", .userDefined "hardcoded" (.vstr "v1")⟩]⟩,
    ⟨"VARX", [⟨"env1", .dynamic "k"⟩]⟩,
    ⟨"VAR3", [⟨"env1", .userDefined "hardcoded" (.vstr "v3-1")⟩,
              ⟨"env2", .userDefined "hardcoded" (.vstr "v3-2")⟩]⟩]⟩

/-- C7 witness: the scenario returns `["VAR1", "VAR3"]` in insertion order,
excluding the dynamic `VARX`. -/
theorem listVariables_spec_witness :
    demoVarRegList.listVariables "env1" "hardcoded" = ["VAR1", "VAR3"] := by
  have h := listVariables_spec demoVarRegList "env1" "hardcoded" (by decide)
  exact h.trans (by decide)

/-- C8: builder persistence.  Every builder (`addEnv`, `addResolution`,
`addVar`, `mergeWith`, `for`, `dynamicFor`) constructs a new value whose
collections are the receiver's collections with exactly the new element
appended, leaving every other observable field equal to the receiver's; the
receiver itself is a value the builder never mutates (the source constructs
each result with `new …([...old, new])`, which this persistent embedding
mirrors), so the original object used again behaves exactly as before. -/
theorem builders_persistent
    (er : EnvironmentRegistry) (envName : String) (f : Environment → Environment)
    (e : Environment) (tag : String) (b : Bool) (res : ResolveInput → ResolveResult)
    (vr other : VariableRegistry) (vname : String) (g : Variable → Variable)
    (V : Variable) (en tg : String) (p : JSValue) (dn : String) :
    (er.addEnv envName f).environments = er.environments ++ [f (Environment.create envName)] ∧
    (e.addResolution tag b res).name = e.name ∧
    (e.addResolution tag b res).resolutions = e.resolutions ++ [⟨tag, b, res⟩] ∧
    (vr.addVar vname g).environmentRegistry = vr.environmentRegistry ∧
    (vr.addVar vname g).vars = vr.vars ++ [g (Variable.create vname)] ∧
    (vr.mergeWith other).environmentRegistry = vr.environmentRegistry ∧
    (vr.mergeWith other).vars = vr.vars ++ other.vars ∧
    (V.forEnv en tg p).name = V.name ∧
    (V.forEnv en tg p).definitions = V.definitions ++ [⟨en, .userDefined tg p⟩] ∧
    (V.dynamicFor en dn).name = V.name ∧
    (V.dynamicFor en dn).definitions = V.definitions ++ [⟨en, .dynamic dn⟩] :=
  ⟨rfl, rfl, rfl, rfl, rfl, rfl, rfl, rfl, rfl, rfl, rfl⟩

/-- C6: uniqueness enforcement evaluated at duplicate inputs.  Duplicate
environment names (`addEnv`), duplicate variable names (`addVar`), merges
with colliding names (`mergeWith`) and duplicate tags through the
*synchronous* `addResolution` overload are rejected without touching the
receiver; but the *asynchronous* `addResolution` overload carries no
duplicate-tag guard, so adding an async resolution under an existing tag is
accepted and appends a second resolution with the same tag. -/
theorem uniqueness_enforcement_gap :
    (EnvironmentRegistry.mk [Environment.create "env1"]).addEnvChecked "env1" id = none ∧
    (VariableRegistry.mk (EnvironmentRegistry.mk []) [Variable.create "VAR1"]).addVarChecked
      "VAR1" id = none ∧
    (VariableRegistry.mk (EnvironmentRegistry.mk []) [Variable.create "VAR1"]).mergeWithChecked
      (VariableRegistry.mk (EnvironmentRegistry.mk []) [Variable.create "VAR1"]) = none ∧
    demoEnv1.addResolutionSyncChecked "hardcoded" (fun d => d.payload) = none ∧
    (demoEnv1.addResolutionAsyncChecked "hardcoded" (fun _ => .vstr "x")).resolutions.map
      Resolution.tag = ["hardcoded", "hardcoded"] :=
  ⟨rfl, rfl, rfl, rfl, rfl⟩

/-- C9: the two `MergeAsync` definitions present in the repository,
evaluated on the singleton and mixed status sets.  The `part_000` revision
collapses a mixed set to `async`; the `part_009` revision collapses the
same mixed set to `sync`, contradicting its own documentation example
(`MergeAsync<"sync" | "async"> // "async"`) and the resolver type tests. -/
theorem mergeAsync_eval :
    MergeAsync [.sync] = .sync ∧
    MergeAsync [.async] = .async ∧
    MergeAsync [.sync, .async] = .async ∧
    MergeAsyncAlt [.sync] = .sync ∧
    MergeAsyncAlt [.async] = .async ∧
    MergeAsyncAlt [.sync, .async] = .sync := by
  refine ⟨?_, ?_, ?_, ?_, ?_, ?_⟩ <;> decide
